import Mathlib

/-!
Shallow embedding of the confinode search/load engine
(`src/Confinode/Confinode.ts`, options in `src/Confinode/ConfinodeOptions.ts`).

Paths are modelled canonically as absolute or relative lists of components
(no dot segments, no trailing separators), so that Node's string equality on
resolved paths coincides with structural equality on `NPath`.  The generator
based I/O of the source (`yield request…`) is modelled by threading an
explicit state that records the emitted requests, the log messages and the
two caches; the two execution drivers are not modelled (they only replay the
same sequence of requests).  External collaborators that are not part of the
sources (Directory Gateway, loader registry, `require.resolve`, the
validation/description layer) are fields of an `Env` record and are
modelled from the spec at their interface.
-/

namespace Confinode

/-- Canonical paths: a list of components, absolute or relative. -/
inductive NPath where
  | abs (parts : List String)
  | rel (parts : List String)
deriving DecidableEq, Repr

/-- Whether the path is absolute. -/
def NPath.isAbs : NPath → Bool
  | .abs _ => true
  | .rel _ => false

/-- The components of the path. -/
def NPath.parts : NPath → List String
  | .abs l => l
  | .rel l => l

/-- Node `path.resolve(cwd, p)` on canonical paths: an absolute path is kept,
a relative one is appended to `cwd`. -/
def resolveP (cwd p : NPath) : NPath :=
  match p with
  | .abs l => .abs l
  | .rel l => .abs (cwd.parts ++ l)

/-- Node `path.dirname`: drop the last component; the root is its own
parent (`dirname("/") = "/"`). -/
def dirnameP : NPath → NPath
  | .abs l => .abs l.dropLast
  | .rel l => .rel l.dropLast

/-- Node `path.basename`: the last component (empty for the root). -/
def basenameP (p : NPath) : String := (p.parts.getLast?).getD ""

/-- Node `path.join(p, extra)` where `extra` is a relative component list. -/
def joinP (p : NPath) (extra : List String) : NPath :=
  match p with
  | .abs l => .abs (l ++ extra)
  | .rel l => .rel (l ++ extra)

/-- Modelled from the spec (the `Loader` module is not among the sources):
a loader reference together with its optional name, as returned by
`LoaderManager.getLoaderFor`. -/
structure NamedLoader (LD : Type) where
  name : Option String
  loader : LD
deriving DecidableEq, Repr

/-- Modelled from the spec (the `FileDescription` module is not among the
sources): either a basename pattern (a stem, possibly with directory
components) or an explicit file name with its loader. -/
inductive FileDescription (LD : Type) where
  | fileBasename (parts : List String)
  | explicitFile (parts : List String) (loader : LD)
deriving DecidableEq, Repr

/-- Modelled from the spec (`ConfigDescription.ParserContext` is external):
the context handed to the validation layer's `parse`. -/
structure ParserContext where
  keyName : String
  fileName : NPath
  final : Bool
deriving DecidableEq, Repr

/-- Modelled from the spec (`ConfinodeResult` is external): provenance
metadata, the file a result came from and its inheritance chain. -/
structure ResultFile where
  fileName : NPath
  extendsFiles : List NPath
deriving DecidableEq, Repr

/-- Modelled from the spec (`ConfinodeResult` is external): the typed value
produced by the validation layer, wrapped with provenance metadata. -/
structure ConfinodeResult (V : Type) where
  parsed : V
  files : ResultFile
deriving DecidableEq, Repr

/-- The errors of the engine: the two `ConfinodeError` kinds thrown by the
sources, and errors propagated from external collaborators. -/
inductive CErr where
  | fileNotFound (name : String)
  | noLoaderFound (file : NPath)
  | external (msg : String)
deriving DecidableEq, Repr

/-- Message severities (`messages.Level`). -/
inductive Level where
  | error
  | warning
  | information
  | trace
deriving DecidableEq, Repr

/-- The log messages emitted by the engine, one constructor per message
identifier used in `Confinode.ts`; `errorLog internal e` is the
`log('loading' | 'internal', exception)` overload. -/
inductive LogMsg where
  | searchInFolder (p : NPath)
  | loadedFromCache
  | loadingFile (p : NPath)
  | usingLoader (n : String)
  | emptyConfiguration
  | loadedConfiguration (p : NPath)
  | multipleFiles (p : NPath)
  | errorLog (internal : Bool) (e : CErr)
deriving DecidableEq, Repr

/-- The severity attached to each message by the source. -/
def LogMsg.level : LogMsg → Level
  | .searchInFolder _ => .trace
  | .loadedFromCache => .trace
  | .loadingFile _ => .trace
  | .usingLoader _ => .trace
  | .emptyConfiguration => .trace
  | .loadedConfiguration _ => .information
  | .multipleFiles _ => .warning
  | .errorLog _ _ => .error

/-- The suspension requests yielded by the generator methods
(`synchronization.ts` request constructors). -/
inductive Request (LD : Type) where
  | isFolder (p : NPath)
  | fileExists (p : NPath)
  | folderContent (p : NPath)
  | loadConfigFile (p : NPath) (loader : LD)
deriving DecidableEq, Repr

/-- Whether a request is a directory listing or a file read. -/
def Request.isListingOrRead : Request LD → Bool
  | .folderContent _ => true
  | .loadConfigFile _ _ => true
  | _ => false

/-- The external collaborators, at their interface: the Directory Gateway
(four operations, which may fail), the loader registry, Node's
`require.resolve` (which yields an absolute path when it succeeds), and the
validation/description layer's `parse`.  `cwd` is `process.cwd()`. -/
structure Env (C V LD : Type) where
  cwd : NPath
  isDirectory : NPath → Except String Bool
  fileExists : NPath → Except String Bool
  folderContent : NPath → Except String (List String)
  loadFile : NPath → LD → Except String (Option C)
  getLoaderFor : List NPath → String → Option String → Option (NamedLoader LD)
  requireResolve : String → NPath → Option (List String)
  descriptionParse : C → ParserContext → Option V

/-- The normalized constructor parameters (`ConfinodeParameters`) that the
engine reads during a search: cache flag, stop directory, module paths and
ordered file descriptions. -/
structure Params (LD : Type) where
  cache : Bool
  searchStop : NPath
  modulePaths : List NPath
  files : List (FileDescription LD)

/-- The per-call default options of `ConfinodeOptions.defaultConfig`,
given the user's home directory: caching on, search stops at home. -/
def defaultParams (homedir : NPath) : Params LD :=
  { cache := true, searchStop := homedir, modulePaths := [], files := [] }

/-- The mutable state of one engine instance: the two caches
(`folderCache`, `contentCache`), plus the observation trace (log messages
and emitted requests).  The caches are association lists where a new entry
shadows an older one for the same key, matching JS object assignment. -/
structure CState (V LD : Type) where
  folderCache : List (NPath × List String)
  contentCache : List (NPath × Option (ConfinodeResult V))
  logs : List LogMsg
  reqs : List (Request LD)
deriving DecidableEq, Repr

/-- The initial state: empty caches, empty traces. -/
def CState.init : CState V LD := ⟨[], [], [], []⟩

/-- Append a log message. -/
def logM (m : LogMsg) (s : CState V LD) : CState V LD :=
  { s with logs := s.logs ++ [m] }

/-- Record an emitted request. -/
def reqM (r : Request LD) (s : CState V LD) : CState V LD :=
  { s with reqs := s.reqs ++ [r] }

/-- `Confinode.clearCache`: reset both caches. -/
def clearCache (s : CState V LD) : CState V LD :=
  { s with folderCache := [], contentCache := [] }

/-- A matched file together with its loader, the return value of
`searchFileAndLoader`. -/
structure FoundFile (LD : Type) where
  fileName : NPath
  loaderName : Option String
  loader : LD
deriving DecidableEq, Repr

/-- JS `String.prototype.startsWith`, on the character list (the underlying
code units), so that it evaluates definitionally. -/
def strStartsWith (s p : String) : Bool := p.data.isPrefixOf s.data

/-- JS `String.prototype.slice(n)`, on the character list. -/
def strDrop (s : String) (n : Nat) : String := ⟨s.data.drop n⟩

/-- JS `String.prototype.length`, on the character list. -/
def strLength (s : String) : Nat := s.data.length

/-- The candidate list built by `searchFileAndLoader` for a basename
description: directory entries starting with `<stem>.` whose remaining
suffix resolves to a loader. -/
def candidateLoaders (env : Env C V LD) (ps : Params LD) (folderName : NPath)
    (baseName : String) (fileNames : List String) : List (FoundFile LD) :=
  (fileNames.filter (fun fn => strStartsWith fn baseName)).filterMap fun fn =>
    match env.getLoaderFor ps.modulePaths fn (some (strDrop fn (strLength baseName))) with
    | some nl => some ⟨joinP folderName [fn], nl.name, nl.loader⟩
    | none => none

/-- The tail of `searchFileAndLoader`'s basename branch: return the first
candidate, logging a warning when there are several; fail when none. -/
def pickLoader (loaders : List (FoundFile LD)) (searchedPath : NPath)
    (s : CState V LD) : Except CErr (Option (FoundFile LD)) × CState V LD :=
  match loaders with
  | [] => (.ok none, s)
  | l :: rest =>
    (.ok (some l), if rest.isEmpty then s else logM (.multipleFiles searchedPath) s)

/-- `Confinode.searchFileAndLoader`: match one file description in one
folder, returning the file and its loader when found. -/
def searchFileAndLoader (env : Env C V LD) (ps : Params LD) (folder : NPath)
    (d : FileDescription LD) (s : CState V LD) :
    Except CErr (Option (FoundFile LD)) × CState V LD :=
  match d with
  | .fileBasename dparts =>
    let searchedPath := joinP folder dparts
    let folderName := dirnameP searchedPath
    let baseName := (dparts.getLast?).getD "" ++ "."
    match s.folderCache.lookup folderName with
    | some fileNames =>
      pickLoader (candidateLoaders env ps folderName baseName fileNames) searchedPath s
    | none =>
      let s := reqM (.folderContent folderName) s
      match env.folderContent folderName with
      | .error e => (.error (.external e), s)
      | .ok fileNames =>
        let s := if ps.cache then
            { s with folderCache := (folderName, fileNames) :: s.folderCache }
          else s
        pickLoader (candidateLoaders env ps folderName baseName fileNames) searchedPath s
  | .explicitFile nparts loader =>
    let fileName := joinP folder nparts
    let s := reqM (.fileExists fileName) s
    match env.fileExists fileName with
    | .error e => (.error (.external e), s)
    | .ok true => (.ok (some ⟨fileName, none, loader⟩), s)
    | .ok false => (.ok none, s)

/-- `Confinode.loadConfigFile`: load one configuration file through the
result cache, resolving a loader when none was supplied, parsing non-empty
content through the description layer and wrapping it with provenance. -/
def loadConfigFile (env : Env C V LD) (ps : Params LD) (fileName : NPath)
    (loader : Option (NamedLoader LD)) (s : CState V LD) :
    Except CErr (Option (ConfinodeResult V)) × CState V LD :=
  let absoluteFile := resolveP env.cwd fileName
  let s := logM (.loadingFile absoluteFile) s
  match s.contentCache.lookup absoluteFile with
  | some cached => (.ok cached, logM .loadedFromCache s)
  | none =>
    match loader <|> env.getLoaderFor ps.modulePaths (basenameP absoluteFile) none with
    | none => (.error (.noLoaderFound absoluteFile), s)
    | some ul =>
      let s := match ul.name with
        | some n => logM (.usingLoader n) s
        | none => s
      let s := reqM (.loadConfigFile absoluteFile ul.loader) s
      match env.loadFile absoluteFile ul.loader with
      | .error e => (.error (.external e), s)
      | .ok none =>
        let s := logM .emptyConfiguration s
        let s := if ps.cache then
            { s with contentCache := (absoluteFile, none) :: s.contentCache }
          else s
        (.ok none, s)
      | .ok (some content) =>
        let result := (env.descriptionParse content ⟨"", fileName, true⟩).map
          fun v => ConfinodeResult.mk v ⟨fileName, []⟩
        let s := if ps.cache then
            { s with contentCache := (absoluteFile, result) :: s.contentCache }
          else s
        (.ok result, s)

/-- `Confinode.searchConfigUsingDescriptions`: try the file descriptions in
order in one folder; the first one whose load yields a result wins. -/
def searchConfigUsingDescriptions (env : Env C V LD) (ps : Params LD)
    (folder : NPath) : List (FileDescription LD) → CState V LD →
    Except CErr (Option (ConfinodeResult V)) × CState V LD
  | [], s => (.ok none, s)
  | d :: ds, s =>
    match searchFileAndLoader env ps folder d s with
    | (.error e, s') => (.error e, s')
    | (.ok none, s') => searchConfigUsingDescriptions env ps folder ds s'
    | (.ok (some fl), s') =>
      match loadConfigFile env ps fl.fileName (some ⟨fl.loaderName, fl.loader⟩) s' with
      | (.error e, s'') => (.error e, s'')
      | (.ok none, s'') => searchConfigUsingDescriptions env ps folder ds s''
      | (.ok (some r), s'') =>
        (.ok (some r), logM (.loadedConfiguration fl.fileName) s'')

/-- Resolving always yields an absolute path. -/
theorem resolveP_isAbs (cwd p : NPath) : ∃ l, resolveP cwd p = .abs l := by
  cases p <;> simp [resolveP]

/-- Going to the parent of a resolved folder shortens the path, whenever the
parent differs (termination of the cascade). -/
theorem dirname_resolve_lt (cwd p : NPath)
    (h : dirnameP (resolveP cwd p) ≠ resolveP cwd p) :
    (resolveP cwd (dirnameP (resolveP cwd p))).parts.length
      < (resolveP cwd p).parts.length := by
  obtain ⟨l, hl⟩ := resolveP_isAbs cwd p
  rw [hl] at h ⊢
  have hnil : l ≠ [] := fun hn => h (by simp [hn, dirnameP])
  have hpos := List.length_pos.mpr hnil
  simp [dirnameP, resolveP, NPath.parts, List.length_dropLast]
  omega

/-- `Confinode.searchConfigInFolder`: the recursive directory cascade.  The
folder is resolved against `cwd`; a result cache hit returns at once; else
the descriptions are tried here and, if nothing was found and this folder
is not the stop directory, the parent is searched; errors are caught and
logged as recoverable loading failures; the outcome is cached. -/
def searchConfigInFolder (env : Env C V LD) (ps : Params LD) (folder : NPath)
    (s : CState V LD) : Except CErr (Option (ConfinodeResult V)) × CState V LD :=
  let absoluteFolder := resolveP env.cwd folder
  let s := logM (.searchInFolder absoluteFolder) s
  match s.contentCache.lookup absoluteFolder with
  | some cached => (.ok cached, logM .loadedFromCache s)
  | none =>
    let rs :=
      match searchConfigUsingDescriptions env ps absoluteFolder ps.files s with
      | (.error e, s') => (none, logM (.errorLog false e) s')
      | (.ok (some r), s') => (some r, s')
      | (.ok none, s') =>
        if absoluteFolder ≠ ps.searchStop then
          if h : dirnameP absoluteFolder ≠ absoluteFolder then
            match searchConfigInFolder env ps (dirnameP absoluteFolder) s' with
            | (.error e, s'') => (none, logM (.errorLog false e) s'')
            | (.ok r, s'') => (r, s'')
          else (none, s')
        else (none, s')
    let s' := if ps.cache then
        { rs.2 with contentCache := (absoluteFolder, rs.1) :: rs.2.contentCache }
      else rs.2
    (.ok rs.1, s')
termination_by (resolveP env.cwd folder).parts.length
decreasing_by
  exact dirname_resolve_lt env.cwd folder h

/-- `Confinode.searchConfig`: resolve the search root (the start path if it
is a directory, else its parent) and run the cascade; any escaping error is
caught, logged as internal, and turned into "not found". -/
def searchConfig (env : Env C V LD) (ps : Params LD) (searchStart : NPath)
    (s : CState V LD) : Except CErr (Option (ConfinodeResult V)) × CState V LD :=
  let s := reqM (.isFolder searchStart) s
  match env.isDirectory searchStart with
  | .error e => (.ok none, logM (.errorLog true (.external e)) s)
  | .ok b =>
    match searchConfigInFolder env ps (if b then searchStart else dirnameP searchStart) s with
    | (.error e, s') => (.ok none, logM (.errorLog true e) s')
    | (.ok r, s') => (.ok r, s')

/-- `Confinode.loadConfig` (the load-by-name entry point): resolve the name
through module resolution, check existence, delegate to `loadConfigFile`;
every error is caught, logged as a recoverable loading failure, and the
call resolves to "not found". -/
def loadConfig (env : Env C V LD) (ps : Params LD) (name : String)
    (folder : NPath) (s : CState V LD) :
    Except CErr (Option (ConfinodeResult V)) × CState V LD :=
  match (env.requireResolve name folder).map NPath.abs with
  | none => (.ok none, logM (.errorLog false (.fileNotFound name)) s)
  | some fn =>
    let s := reqM (.fileExists fn) s
    match env.fileExists fn with
    | .error e => (.ok none, logM (.errorLog false (.external e)) s)
    | .ok false => (.ok none, logM (.errorLog false (.fileNotFound name)) s)
    | .ok true =>
      match loadConfigFile env ps fn none s with
      | (.error e, s') => (.ok none, logM (.errorLog false e) s')
      | (.ok r, s') => (.ok r, s')

/-! Basic facts about the state helpers. -/

variable {C V LD : Type}

@[simp] theorem logM_contentCache (m : LogMsg) (s : CState V LD) :
    (logM m s).contentCache = s.contentCache := rfl

@[simp] theorem logM_folderCache (m : LogMsg) (s : CState V LD) :
    (logM m s).folderCache = s.folderCache := rfl

@[simp] theorem logM_reqs (m : LogMsg) (s : CState V LD) :
    (logM m s).reqs = s.reqs := rfl

@[simp] theorem logM_logs (m : LogMsg) (s : CState V LD) :
    (logM m s).logs = s.logs ++ [m] := rfl

@[simp] theorem reqM_contentCache (r : Request LD) (s : CState V LD) :
    (reqM r s).contentCache = s.contentCache := rfl

@[simp] theorem reqM_folderCache (r : Request LD) (s : CState V LD) :
    (reqM r s).folderCache = s.folderCache := rfl

@[simp] theorem reqM_logs (r : Request LD) (s : CState V LD) :
    (reqM r s).logs = s.logs := rfl

@[simp] theorem reqM_reqs (r : Request LD) (s : CState V LD) :
    (reqM r s).reqs = s.reqs ++ [r] := rfl

/-! One-step characterizations of the cascade. -/

/-- The cascade never lets an exception escape: `searchConfigInFolder`
always returns an `ok` outcome (its internal `try`/`catch` converts any
error into "not found in this branch"). -/
theorem searchConfigInFolder_ok (env : Env C V LD) (ps : Params LD) (folder : NPath)
    (s : CState V LD) : ∃ r s', searchConfigInFolder env ps folder s = (.ok r, s') := by
  rw [searchConfigInFolder]
  dsimp only
  split
  · exact ⟨_, _, rfl⟩
  · exact ⟨_, _, rfl⟩

/-- `search` always returns an `ok` outcome. -/
theorem searchConfig_ok (env : Env C V LD) (ps : Params LD) (start : NPath)
    (s : CState V LD) : ∃ r s', searchConfig env ps start s = (.ok r, s') := by
  rw [searchConfig]
  split
  · exact ⟨_, _, rfl⟩
  · obtain ⟨r, s', h⟩ := searchConfigInFolder_ok env ps _ (reqM (.isFolder start) s)
    rw [h]
    exact ⟨_, _, rfl⟩

/-- Load-by-name always returns an `ok` outcome. -/
theorem loadConfig_ok (env : Env C V LD) (ps : Params LD) (name : String)
    (folder : NPath) (s : CState V LD) :
    ∃ r s', loadConfig env ps name folder s = (.ok r, s') := by
  rw [loadConfig]
  split
  · exact ⟨_, _, rfl⟩
  · dsimp only
    split
    · exact ⟨_, _, rfl⟩
    · exact ⟨_, _, rfl⟩
    · split
      · exact ⟨_, _, rfl⟩
      · exact ⟨_, _, rfl⟩

/-- One step of the cascade on a result-cache hit: the cached value is
returned at once. -/
theorem searchConfigInFolder_cacheHit (env : Env C V LD) (ps : Params LD)
    (folder : NPath) (s : CState V LD) (cached : Option (ConfinodeResult V))
    (h : s.contentCache.lookup (resolveP env.cwd folder) = some cached) :
    searchConfigInFolder env ps folder s =
      (.ok cached,
        logM .loadedFromCache (logM (.searchInFolder (resolveP env.cwd folder)) s)) := by
  rw [searchConfigInFolder]
  simp only [logM_contentCache, h]

/-- One step of the cascade on a result-cache miss: try the descriptions
here, recurse into the parent when allowed, catch errors, cache the
outcome. -/
theorem searchConfigInFolder_cacheMiss (env : Env C V LD) (ps : Params LD)
    (folder : NPath) (s : CState V LD)
    (h : s.contentCache.lookup (resolveP env.cwd folder) = none) :
    searchConfigInFolder env ps folder s =
      (let absoluteFolder := resolveP env.cwd folder
      let s1 := logM (.searchInFolder absoluteFolder) s
      let rs :=
        match searchConfigUsingDescriptions env ps absoluteFolder ps.files s1 with
        | (.error e, s') => (none, logM (.errorLog false e) s')
        | (.ok (some r), s') => (some r, s')
        | (.ok none, s') =>
          if absoluteFolder ≠ ps.searchStop then
            if h : dirnameP absoluteFolder ≠ absoluteFolder then
              match searchConfigInFolder env ps (dirnameP absoluteFolder) s' with
              | (.error e, s'') => (none, logM (.errorLog false e) s'')
              | (.ok r, s'') => (r, s'')
            else (none, s')
          else (none, s')
      (.ok rs.1, if ps.cache then
          { rs.2 with contentCache := (absoluteFolder, rs.1) :: rs.2.contentCache }
        else rs.2)) := by
  conv => lhs; rw [searchConfigInFolder]
  simp only [logM_contentCache, h]


theorem pickLoader_sif (ls : List (FoundFile LD)) (p : NPath) (s : CState V LD) (v : NPath)
    (hv : LogMsg.searchInFolder v ∈ (pickLoader ls p s).2.logs) :
    LogMsg.searchInFolder v ∈ s.logs := by
  unfold pickLoader at hv
  rcases ls with _ | ⟨l, rest⟩
  · exact hv
  · dsimp only at hv
    split at hv <;> simp_all [logM]

theorem sfal_sif (env : Env C V LD) (ps : Params LD) (folder : NPath)
    (d : FileDescription LD) (s : CState V LD) (v : NPath)
    (hv : LogMsg.searchInFolder v ∈ (searchFileAndLoader env ps folder d s).2.logs) :
    LogMsg.searchInFolder v ∈ s.logs := by
  unfold searchFileAndLoader at hv
  rcases d with dparts | ⟨nparts, loader⟩
  · dsimp only at hv
    split at hv
    · exact pickLoader_sif _ _ _ _ hv
    · split at hv
      · exact hv
      · have hp := pickLoader_sif _ _ _ _ hv
        split at hp <;> simp_all [reqM]
  · dsimp only at hv
    split at hv <;> exact hv

theorem lcf_sif (env : Env C V LD) (ps : Params LD) (fileName : NPath)
    (loader : Option (NamedLoader LD)) (s : CState V LD) (v : NPath)
    (hv : LogMsg.searchInFolder v ∈ (loadConfigFile env ps fileName loader s).2.logs) :
    LogMsg.searchInFolder v ∈ s.logs := by
  unfold loadConfigFile at hv
  dsimp only at hv
  repeat' split at hv
  all_goals simp_all [logM, reqM]

theorem scud_sif (env : Env C V LD) (ps : Params LD) (folder : NPath)
    (ds : List (FileDescription LD)) (s : CState V LD) (v : NPath)
    (hv : LogMsg.searchInFolder v ∈
      (searchConfigUsingDescriptions env ps folder ds s).2.logs) :
    LogMsg.searchInFolder v ∈ s.logs := by
  induction ds generalizing s with
  | nil => exact hv
  | cons d ds ih =>
    unfold searchConfigUsingDescriptions at hv
    split at hv
    case h_1 e s' heq =>
      exact sfal_sif env ps folder d s v (by rw [heq]; exact hv)
    case h_2 s' heq =>
      exact sfal_sif env ps folder d s v (by rw [heq]; exact ih _ hv)
    case h_3 fl s' heq =>
      split at hv
      case h_1 e s'' heq2 =>
        have h1 : LogMsg.searchInFolder v ∈ s'.logs :=
          lcf_sif env ps fl.fileName (some ⟨fl.loaderName, fl.loader⟩) s' v
            (by rw [heq2]; exact hv)
        exact sfal_sif env ps folder d s v (by rw [heq]; exact h1)
      case h_2 s'' heq2 =>
        have h1 : LogMsg.searchInFolder v ∈ s'.logs :=
          lcf_sif env ps fl.fileName (some ⟨fl.loaderName, fl.loader⟩) s' v
            (by rw [heq2]; exact ih _ hv)
        exact sfal_sif env ps folder d s v (by rw [heq]; exact h1)
      case h_3 r s'' heq2 =>
        simp only [logM_logs, List.mem_append, List.mem_singleton] at hv
        rcases hv with hv | hv
        · have h1 : LogMsg.searchInFolder v ∈ s'.logs :=
            lcf_sif env ps fl.fileName (some ⟨fl.loaderName, fl.loader⟩) s' v
              (by rw [heq2]; exact hv)
          exact sfal_sif env ps folder d s v (by rw [heq]; exact h1)
        · exact absurd hv (by simp)

theorem lookup_cons_self {α β : Type} [DecidableEq α] (a : α) (v : β) (l : List (α × β)) :
    ((a, v) :: l).lookup a = some v := by simp [List.lookup]

theorem lookup_cons_ne {α β : Type} [DecidableEq α] {a k : α} (v : β) (l : List (α × β))
    (h : a ≠ k) : ((k, v) :: l).lookup a = l.lookup a := by
  simp [List.lookup, beq_false_of_ne h]

theorem searchConfigInFolder_caches (env : Env C V LD) (ps : Params LD)
    (folder : NPath) (s : CState V LD) (r : Option (ConfinodeResult V))
    (s' : CState V LD) (hc : ps.cache = true)
    (h : searchConfigInFolder env ps folder s = (.ok r, s')) :
    s'.contentCache.lookup (resolveP env.cwd folder) = some r := by
  rcases hcache : s.contentCache.lookup (resolveP env.cwd folder) with _ | cached
  · rw [searchConfigInFolder_cacheMiss env ps folder s hcache] at h
    simp only [hc, if_true] at h
    have h1 := congrArg Prod.fst h
    have h2 := congrArg Prod.snd h
    dsimp only at h1 h2
    subst h2
    have h3 : _ = r := Except.ok.inj h1
    dsimp only
    rw [lookup_cons_self, h3]
  · rw [searchConfigInFolder_cacheHit env ps folder s cached hcache] at h
    have h1 := congrArg Prod.fst h
    have h2 := congrArg Prod.snd h
    dsimp only at h1 h2
    subst h2
    have h3 : cached = r := Except.ok.inj h1
    simp only [logM_contentCache, hcache, h3]

theorem cascade_cache_consistent (env : Env C V LD) (ps : Params LD)
    (hc : ps.cache = true) (folder : NPath) (s : CState V LD) :
    ∀ r s', searchConfigInFolder env ps folder s = (.ok r, s') →
      ∀ v, LogMsg.searchInFolder v ∈ s'.logs →
        LogMsg.searchInFolder v ∈ s.logs ∨ s'.contentCache.lookup v = some r := by
  induction folder, s using searchConfigInFolder.induct env ps with
  | case1 folder s absF s1 cached hlook =>
    intro r s' h v hv
    have hl : s.contentCache.lookup (resolveP env.cwd folder) = some cached := hlook
    rw [searchConfigInFolder_cacheHit env ps folder s cached hl] at h
    have h1 := congrArg Prod.fst h
    have h2 := congrArg Prod.snd h
    dsimp only at h1 h2
    subst h2
    have h3 : cached = r := Except.ok.inj h1
    simp only [logM_logs, List.mem_append, List.mem_singleton] at hv
    rcases hv with (hv | hv) | hv
    · exact Or.inl hv
    · obtain rfl : v = resolveP env.cwd folder := LogMsg.searchInFolder.inj hv
      right
      simp only [logM_contentCache]
      rw [← h3]
      exact hl
    · exact absurd hv (by simp)
  | case2 folder s absF s1 hlook ih =>
    intro r s' h v hv
    have hl : s.contentCache.lookup (resolveP env.cwd folder) = none := hlook
    rw [searchConfigInFolder_cacheMiss env ps folder s hl] at h
    simp only [hc, if_true] at h
    rcases hscud : searchConfigUsingDescriptions env ps (resolveP env.cwd folder) ps.files
        (logM (.searchInFolder (resolveP env.cwd folder)) s) with ⟨res, s₁⟩
    rw [hscud] at h
    rcases res with e | ro
    · dsimp only at h
      have h1 := congrArg Prod.fst h
      have h2 := congrArg Prod.snd h
      dsimp only at h1 h2
      subst h2
      have h3 : none = r := Except.ok.inj h1
      simp only [logM_logs, List.mem_append, List.mem_singleton] at hv
      rcases hv with hv | hv
      · have hv1 := scud_sif env ps _ _ _ v (by rw [hscud]; exact hv)
        simp only [logM_logs, List.mem_append, List.mem_singleton] at hv1
        rcases hv1 with hv1 | hv1
        · exact Or.inl hv1
        · obtain rfl : v = resolveP env.cwd folder := LogMsg.searchInFolder.inj hv1
          right
          dsimp only
          rw [lookup_cons_self, ← h3]
      · exact absurd hv (by simp)
    · rcases ro with _ | r0
      · -- scud returned ok none: maybe recursion
        dsimp only at h
        split at h
        · -- absoluteFolder ≠ searchStop
          split at h
          · -- dirname ≠ absoluteFolder: recursion fires
            rename_i hne hdir
            obtain ⟨rI, sI, hrec⟩ := searchConfigInFolder_ok env ps (dirnameP (resolveP env.cwd folder)) s₁
            rw [hrec] at h
            dsimp only at h
            have h1 := congrArg Prod.fst h
            have h2 := congrArg Prod.snd h
            dsimp only at h1 h2
            subst h2
            have h3 : rI = r := Except.ok.inj h1
            have hih := ih s₁ hdir rI sI hrec v (by exact hv)
            rcases hih with hih | hih
            · have hv1 := scud_sif env ps _ _ _ v (by rw [hscud]; exact hih)
              simp only [logM_logs, List.mem_append, List.mem_singleton] at hv1
              rcases hv1 with hv1 | hv1
              · exact Or.inl hv1
              · obtain rfl : v = resolveP env.cwd folder := LogMsg.searchInFolder.inj hv1
                right
                dsimp only
                rw [lookup_cons_self, h3]
            · right
              dsimp only
              by_cases hveq : v = resolveP env.cwd folder
              · subst hveq
                rw [lookup_cons_self, h3]
              · rw [lookup_cons_ne _ _ hveq, hih, h3]
          · -- root reached
            dsimp only at h
            have h1 := congrArg Prod.fst h
            have h2 := congrArg Prod.snd h
            dsimp only at h1 h2
            subst h2
            have h3 : none = r := Except.ok.inj h1
            have hv1 := scud_sif env ps _ _ _ v (by rw [hscud]; exact hv)
            simp only [logM_logs, List.mem_append, List.mem_singleton] at hv1
            rcases hv1 with hv1 | hv1
            · exact Or.inl hv1
            · obtain rfl : v = resolveP env.cwd folder := LogMsg.searchInFolder.inj hv1
              right
              dsimp only
              rw [lookup_cons_self, ← h3]
        · -- stop directory reached
          dsimp only at h
          have h1 := congrArg Prod.fst h
          have h2 := congrArg Prod.snd h
          dsimp only at h1 h2
          subst h2
          have h3 : none = r := Except.ok.inj h1
          have hv1 := scud_sif env ps _ _ _ v (by rw [hscud]; exact hv)
          simp only [logM_logs, List.mem_append, List.mem_singleton] at hv1
          rcases hv1 with hv1 | hv1
          · exact Or.inl hv1
          · obtain rfl : v = resolveP env.cwd folder := LogMsg.searchInFolder.inj hv1
            right
            dsimp only
            rw [lookup_cons_self, ← h3]
      · -- scud found a result here
        dsimp only at h
        have h1 := congrArg Prod.fst h
        have h2 := congrArg Prod.snd h
        dsimp only at h1 h2
        subst h2
        have h3 : some r0 = r := Except.ok.inj h1
        have hv1 := scud_sif env ps _ _ _ v (by rw [hscud]; exact hv)
        simp only [logM_logs, List.mem_append, List.mem_singleton] at hv1
        rcases hv1 with hv1 | hv1
        · exact Or.inl hv1
        · obtain rfl : v = resolveP env.cwd folder := LogMsg.searchInFolder.inj hv1
          right
          dsimp only
          rw [lookup_cons_self, ← h3]


/-- Fuel-indexed twin of `searchConfigInFolder`, identical body except that
recursion consumes fuel; it reduces definitionally on concrete inputs
(`searchConfigInFolderExec_eq` shows agreement with the cascade whenever
the fuel dominates the folder depth). -/
def searchConfigInFolderExec (env : Env C V LD) (ps : Params LD) :
    Nat → NPath → CState V LD → Except CErr (Option (ConfinodeResult V)) × CState V LD
  | 0, _, s => (.ok none, s)
  | fuel+1, folder, s =>
    let absoluteFolder := resolveP env.cwd folder
    let s := logM (.searchInFolder absoluteFolder) s
    match s.contentCache.lookup absoluteFolder with
    | some cached => (.ok cached, logM .loadedFromCache s)
    | none =>
      let rs :=
        match searchConfigUsingDescriptions env ps absoluteFolder ps.files s with
        | (.error e, s') => (none, logM (.errorLog false e) s')
        | (.ok (some r), s') => (some r, s')
        | (.ok none, s') =>
          if absoluteFolder ≠ ps.searchStop then
            if h : dirnameP absoluteFolder ≠ absoluteFolder then
              match searchConfigInFolderExec env ps fuel (dirnameP absoluteFolder) s' with
              | (.error e, s'') => (none, logM (.errorLog false e) s'')
              | (.ok r, s'') => (r, s'')
            else (none, s')
          else (none, s')
      let s' := if ps.cache then
          { rs.2 with contentCache := (absoluteFolder, rs.1) :: rs.2.contentCache }
        else rs.2
      (.ok rs.1, s')

/-- With enough fuel, the executable twin agrees with the cascade. -/
theorem searchConfigInFolderExec_eq (env : Env C V LD) (ps : Params LD) :
    ∀ (fuel : Nat) (folder : NPath) (s : CState V LD),
      (resolveP env.cwd folder).parts.length < fuel →
      searchConfigInFolderExec env ps fuel folder s = searchConfigInFolder env ps folder s := by
  intro fuel
  induction fuel with
  | zero => intro folder s h; omega
  | succ fuel ih =>
    intro folder s hlt
    rcases hcache : s.contentCache.lookup (resolveP env.cwd folder) with _ | cached
    · rw [searchConfigInFolder_cacheMiss env ps folder s hcache]
      simp only [searchConfigInFolderExec]
      simp only [logM_contentCache, hcache]
      rcases hscud : searchConfigUsingDescriptions env ps (resolveP env.cwd folder) ps.files
          (logM (.searchInFolder (resolveP env.cwd folder)) s) with ⟨res, s₁⟩
      rcases res with e | ro
      · rfl
      · rcases ro with _ | r0
        · dsimp only
          by_cases hstop : resolveP env.cwd folder ≠ ps.searchStop
          · by_cases hdir : dirnameP (resolveP env.cwd folder) ≠ resolveP env.cwd folder
            · have hlt2 : (resolveP env.cwd (dirnameP (resolveP env.cwd folder))).parts.length < fuel := by
                have := dirname_resolve_lt env.cwd folder hdir
                omega
              rw [ih _ s₁ hlt2]
            · simp [hdir]
          · simp [hstop]
        · rfl
    · rw [searchConfigInFolder_cacheHit env ps folder s cached hcache]
      simp only [searchConfigInFolderExec]
      simp only [logM_contentCache, hcache]

/-- Going to the parent never lengthens a resolved path. -/
theorem resolve_dirname_le (cwd p : NPath) :
    (resolveP cwd (dirnameP p)).parts.length ≤ (resolveP cwd p).parts.length := by
  cases p <;> simp [resolveP, dirnameP, NPath.parts]

def searchConfigExec (env : Env C V LD) (ps : Params LD) (fuel : Nat)
    (searchStart : NPath) (s : CState V LD) :
    Except CErr (Option (ConfinodeResult V)) × CState V LD :=
  let s := reqM (.isFolder searchStart) s
  match env.isDirectory searchStart with
  | .error e => (.ok none, logM (.errorLog true (.external e)) s)
  | .ok b =>
    match searchConfigInFolderExec env ps fuel (if b then searchStart else dirnameP searchStart) s with
    | (.error e, s') => (.ok none, logM (.errorLog true e) s')
    | (.ok r, s') => (.ok r, s')

theorem searchConfigExec_eq (env : Env C V LD) (ps : Params LD) (fuel : Nat)
    (searchStart : NPath) (s : CState V LD)
    (h : (resolveP env.cwd searchStart).parts.length < fuel) :
    searchConfigExec env ps fuel searchStart s = searchConfig env ps searchStart s := by
  rw [searchConfigExec, searchConfig]
  cases hd : env.isDirectory searchStart with
  | error e => rfl
  | ok b =>
    cases b with
    | true =>
      dsimp only
      rw [if_pos rfl,
        searchConfigInFolderExec_eq env ps fuel searchStart _ (by simpa using h)]
    | false =>
      dsimp only
      rw [if_neg (by simp),
        searchConfigInFolderExec_eq env ps fuel (dirnameP searchStart) _
          (lt_of_le_of_lt (resolve_dirname_le env.cwd searchStart) h)]

deriving instance DecidableEq for Except

/-- A concrete environment for witnesses: directories `/`, `/a`, `/a/b`;
the single file `/a/conf.yaml` parses to 5 and validates to 7; module
resolution always fails. -/
def wEnv : Env Nat Nat Nat where
  cwd := .abs []
  isDirectory := fun p => .ok (decide (p = .abs ["a","b"] ∨ p = .abs ["a"] ∨ p = .abs []))
  fileExists := fun _ => .ok false
  folderContent := fun p => if p = .abs ["a"] then .ok ["conf.yaml", "other.txt"] else .ok []
  loadFile := fun p l => if p = .abs ["a","conf.yaml"] ∧ l = 1 then .ok (some 5) else .ok none
  getLoaderFor := fun _ fn _ => if fn = "conf.yaml" then some ⟨some "yaml", 1⟩ else none
  requireResolve := fun _ _ => none
  descriptionParse := fun c _ => some (c + 2)

def wPs : Params Nat :=
  { cache := true, searchStop := .abs [], modulePaths := [], files := [.fileBasename ["conf"]] }

deriving instance DecidableEq for Except


/-! The claims. -/

/-- C1: both the search operation and the direct load-by-name operation
always return a value (`Except.ok` of a result or of the explicit
"not found" value `none`) and never propagate an exception to the caller;
loading a non-existent relative name such as "./missing.yaml" resolves to
"not found". -/
theorem c1_search_and_load_never_raise (env : Env C V LD) (ps : Params LD)
    (start : NPath) (name : String) (folder : NPath) (s₁ s₂ s₃ : CState V LD)
    (hmiss : env.requireResolve "./missing.yaml" folder = none) :
    (∃ r s', searchConfig env ps start s₁ = (.ok r, s')) ∧
    (∃ r s', loadConfig env ps name folder s₂ = (.ok r, s')) ∧
    (∃ s', loadConfig env ps "./missing.yaml" folder s₃ = (.ok none, s')) := by
  refine ⟨searchConfig_ok env ps start s₁, loadConfig_ok env ps name folder s₂, ?_⟩
  rw [loadConfig, hmiss]
  exact ⟨_, rfl⟩

/-- Witness for C1 at the concrete environment. -/
theorem c1_search_and_load_never_raise_witness :
    (∃ r s', searchConfig wEnv wPs (.abs ["a","b"]) CState.init = (.ok r, s')) ∧
    (∃ r s', loadConfig wEnv wPs "x" (.abs []) CState.init = (.ok r, s')) ∧
    (∃ s', loadConfig wEnv wPs "./missing.yaml" (.abs []) CState.init = (.ok none, s')) :=
  c1_search_and_load_never_raise wEnv wPs (.abs ["a","b"]) "x" (.abs [])
    CState.init CState.init CState.init rfl

/-- The result found by the concrete witness search. -/
def wRes : Option (ConfinodeResult Nat) := some ⟨7, ⟨.abs ["a","conf.yaml"], []⟩⟩

/-- The state left by the concrete witness search. -/
def wS1 : CState Nat Nat := (searchConfigExec wEnv wPs 3 (.abs ["a","b"]) CState.init).2

/-- C5: with caching enabled, a second `search` from the same starting path
returns the identical result while emitting only the initial is-directory
request — in particular no directory listing and no file read — and after
`clearCache` both caches are empty. -/
theorem c5_second_search_cached (env : Env C V LD) (ps : Params LD)
    (start : NPath) (s₀ : CState V LD) (r : Option (ConfinodeResult V))
    (s₁ : CState V LD) (hc : ps.cache = true)
    (h : searchConfig env ps start s₀ = (.ok r, s₁)) :
    (∃ s₂, searchConfig env ps start s₁ = (.ok r, s₂) ∧
      s₂.reqs = s₁.reqs ++ [Request.isFolder start] ∧
      s₂.contentCache = s₁.contentCache ∧ s₂.folderCache = s₁.folderCache) ∧
    (clearCache s₁).folderCache = [] ∧ (clearCache s₁).contentCache = [] := by
  refine ⟨?_, rfl, rfl⟩
  rw [searchConfig] at h ⊢
  cases hd : env.isDirectory start with
  | error e =>
    rw [hd] at h
    dsimp only at h ⊢
    have h1 := congrArg Prod.fst h
    have h2 := congrArg Prod.snd h
    dsimp only at h1 h2
    obtain rfl : none = r := Except.ok.inj h1
    subst h2
    exact ⟨_, rfl, by simp, rfl, rfl⟩
  | ok b =>
    rw [hd] at h
    dsimp only at h ⊢
    obtain ⟨rI, sI, hrec⟩ := searchConfigInFolder_ok env ps
      (if b then start else dirnameP start) (reqM (.isFolder start) s₀)
    rw [hrec] at h
    dsimp only at h
    have h1 := congrArg Prod.fst h
    have h2 := congrArg Prod.snd h
    dsimp only at h1 h2
    obtain rfl : rI = r := Except.ok.inj h1
    subst h2
    have hlook : sI.contentCache.lookup
        (resolveP env.cwd (if b then start else dirnameP start)) = some rI :=
      searchConfigInFolder_caches env ps _ _ _ _ hc hrec
    rw [searchConfigInFolder_cacheHit env ps _ (reqM (.isFolder start) sI) rI
      (by simpa using hlook)]
    exact ⟨_, rfl, by simp, rfl, rfl⟩

/-- Witness for C5: the concrete first search caches, and the theorem
applies to it. -/
theorem c5_second_search_cached_witness :
    (∃ s₂, searchConfig wEnv wPs (.abs ["a","b"]) wS1 = (.ok wRes, s₂) ∧
      s₂.reqs = wS1.reqs ++ [Request.isFolder (.abs ["a","b"])] ∧
      s₂.contentCache = wS1.contentCache ∧ s₂.folderCache = wS1.folderCache) ∧
    (clearCache wS1).folderCache = [] ∧ (clearCache wS1).contentCache = [] :=
  c5_second_search_cached wEnv wPs (.abs ["a","b"]) CState.init wRes wS1 rfl
    (by rw [← searchConfigExec_eq wEnv wPs 3 (.abs ["a","b"]) CState.init (by decide)]; rfl)

/-- C9: with caching enabled, after a search completes, every directory
visited during its cascade has a result-cache entry holding the overall
result of the search (including `none` when nothing was found). -/
theorem c9_visited_cache_entries_hold_overall_result (env : Env C V LD)
    (ps : Params LD) (start : NPath) (s : CState V LD)
    (r : Option (ConfinodeResult V)) (s' : CState V LD) (hc : ps.cache = true)
    (h : searchConfig env ps start s = (.ok r, s')) :
    ∀ v, LogMsg.searchInFolder v ∈ s'.logs →
      LogMsg.searchInFolder v ∈ s.logs ∨ s'.contentCache.lookup v = some r := by
  rw [searchConfig] at h
  cases hd : env.isDirectory start with
  | error e =>
    rw [hd] at h
    dsimp only at h
    have h1 := congrArg Prod.fst h
    have h2 := congrArg Prod.snd h
    dsimp only at h1 h2
    subst h2
    intro v hv
    simp only [logM_logs, reqM_logs, List.mem_append, List.mem_singleton] at hv
    rcases hv with hv | hv
    · exact Or.inl hv
    · exact absurd hv (by simp)
  | ok b =>
    rw [hd] at h
    dsimp only at h
    obtain ⟨rI, sI, hrec⟩ := searchConfigInFolder_ok env ps
      (if b then start else dirnameP start) (reqM (.isFolder start) s)
    rw [hrec] at h
    dsimp only at h
    have h1 := congrArg Prod.fst h
    have h2 := congrArg Prod.snd h
    dsimp only at h1 h2
    obtain rfl : rI = r := Except.ok.inj h1
    subst h2
    intro v hv
    have := cascade_cache_consistent env ps hc _ _ rI sI hrec v hv
    simpa using this

/-- Witness for C9: the folder `/a` was visited by the concrete search and
its cache entry holds the overall result. -/
theorem c9_visited_cache_entries_hold_overall_result_witness :
    LogMsg.searchInFolder (.abs ["a"]) ∈ (CState.init : CState Nat Nat).logs ∨
      wS1.contentCache.lookup (.abs ["a"]) = some wRes :=
  c9_visited_cache_entries_hold_overall_result wEnv wPs (.abs ["a","b"])
    CState.init wRes wS1 rfl
    (by rw [← searchConfigExec_eq wEnv wPs 3 (.abs ["a","b"]) CState.init (by decide)]; rfl)
    (.abs ["a"]) (by decide)


theorem resolveP_of_isAbs (cwd p : NPath) (h : p.isAbs = true) : resolveP cwd p = p := by
  cases p
  · rfl
  · simp [NPath.isAbs] at h

theorem scud_append (env : Env C V LD) (ps : Params LD) (folder : NPath)
    (l₁ l₂ : List (FileDescription LD)) (s s₁ : CState V LD)
    (h : searchConfigUsingDescriptions env ps folder l₁ s = (.ok none, s₁)) :
    searchConfigUsingDescriptions env ps folder (l₁ ++ l₂) s =
      searchConfigUsingDescriptions env ps folder l₂ s₁ := by
  induction l₁ generalizing s with
  | nil =>
    obtain rfl : s = s₁ := congrArg Prod.snd h
    rfl
  | cons d l₁ ih =>
    rw [List.cons_append]
    rw [searchConfigUsingDescriptions] at h ⊢
    split at h
    case h_1 e s' heq =>
      exact absurd (congrArg Prod.fst h) (by simp)
    case h_2 s' heq =>
      exact ih s' h
    case h_3 fl s' heq =>
      split at h
      case h_1 e s'' heq2 =>
        exact absurd (congrArg Prod.fst h) (by simp)
      case h_2 s'' heq2 =>
        exact ih s'' h
      case h_3 r s'' heq2 =>
        exact absurd (congrArg Prod.fst h) (by simp)

theorem pickLoader_logs (ls : List (FoundFile LD)) (p : NPath) (s : CState V LD) :
    ∃ t, (pickLoader ls p s).2.logs = s.logs ++ t := by
  unfold pickLoader
  rcases ls with _ | ⟨l, rest⟩
  · exact ⟨[], by simp⟩
  · dsimp only
    split
    · exact ⟨[], by simp⟩
    · exact ⟨[.multipleFiles p], by simp [logM]⟩

theorem sfal_logs (env : Env C V LD) (ps : Params LD) (folder : NPath)
    (d : FileDescription LD) (s : CState V LD) :
    ∃ t, (searchFileAndLoader env ps folder d s).2.logs = s.logs ++ t := by
  unfold searchFileAndLoader
  rcases d with dparts | ⟨nparts, loader⟩
  · dsimp only
    split
    · exact pickLoader_logs _ _ _
    · split
      · exact ⟨[], by simp⟩
      · obtain ⟨t, ht⟩ := pickLoader_logs
          (candidateLoaders env ps (dirnameP (joinP folder dparts))
            ((dparts.getLast?).getD "" ++ ".") _) (joinP folder dparts)
          (if ps.cache then _ else _)
        refine ⟨t, ?_⟩
        rw [ht]
        split <;> simp [reqM]
  · dsimp only
    split <;> exact ⟨[], by simp⟩

theorem lcf_logs (env : Env C V LD) (ps : Params LD) (fileName : NPath)
    (loader : Option (NamedLoader LD)) (s : CState V LD) :
    ∃ t, (loadConfigFile env ps fileName loader s).2.logs = s.logs ++ t := by
  unfold loadConfigFile
  dsimp only
  repeat' split
  all_goals exact ⟨_, by simp [logM, reqM] <;> rfl⟩

theorem scud_logs (env : Env C V LD) (ps : Params LD) (folder : NPath)
    (ds : List (FileDescription LD)) (s : CState V LD) :
    ∃ t, (searchConfigUsingDescriptions env ps folder ds s).2.logs = s.logs ++ t := by
  induction ds generalizing s with
  | nil => exact ⟨[], by simp [searchConfigUsingDescriptions]⟩
  | cons d ds ih =>
    rw [searchConfigUsingDescriptions]
    obtain ⟨t₀, ht₀⟩ := sfal_logs env ps folder d s
    split
    case h_1 e s' heq =>
      exact ⟨t₀, by rw [heq] at ht₀; exact ht₀⟩
    case h_2 s' heq =>
      obtain ⟨t₁, ht₁⟩ := ih s'
      refine ⟨t₀ ++ t₁, ?_⟩
      rw [ht₁]
      rw [heq] at ht₀
      simp only at ht₀
      rw [ht₀, List.append_assoc]
    case h_3 fl s' heq =>
      obtain ⟨t₁, ht₁⟩ := lcf_logs env ps fl.fileName (some ⟨fl.loaderName, fl.loader⟩) s'
      rw [heq] at ht₀
      simp only at ht₀
      split
      case h_1 e s'' heq2 =>
        refine ⟨t₀ ++ t₁, ?_⟩
        rw [heq2] at ht₁
        simp only at ht₁
        simp [ht₁, ht₀, List.append_assoc]
      case h_2 s'' heq2 =>
        obtain ⟨t₂, ht₂⟩ := ih s''
        rw [heq2] at ht₁
        simp only at ht₁
        exact ⟨t₀ ++ (t₁ ++ t₂), by simp [ht₂, ht₁, ht₀, List.append_assoc]⟩
      case h_3 r s'' heq2 =>
        rw [heq2] at ht₁
        simp only at ht₁
        exact ⟨t₀ ++ (t₁ ++ [.loadedConfiguration fl.fileName]),
          by simp [logM, ht₁, ht₀, List.append_assoc]⟩

theorem scif_logs (env : Env C V LD) (ps : Params LD) (folder : NPath)
    (s : CState V LD) :
    ∃ t, (searchConfigInFolder env ps folder s).2.logs =
      s.logs ++ [LogMsg.searchInFolder (resolveP env.cwd folder)] ++ t := by
  rcases hcache : s.contentCache.lookup (resolveP env.cwd folder) with _ | cached
  · rw [searchConfigInFolder_cacheMiss env ps folder s hcache]
    dsimp only
    rcases hscud : searchConfigUsingDescriptions env ps (resolveP env.cwd folder) ps.files
        (logM (.searchInFolder (resolveP env.cwd folder)) s) with ⟨res, s₁⟩
    obtain ⟨t₀, ht₀⟩ := scud_logs env ps (resolveP env.cwd folder) ps.files
      (logM (.searchInFolder (resolveP env.cwd folder)) s)
    rw [hscud] at ht₀
    simp only [logM_logs] at ht₀
    rcases res with e | ro
    · refine ⟨t₀ ++ [.errorLog false e], ?_⟩
      split <;> simp [logM, ht₀, List.append_assoc]
    · rcases ro with _ | r0
      · by_cases hstop : resolveP env.cwd folder ≠ ps.searchStop
        · by_cases hdir : dirnameP (resolveP env.cwd folder) ≠ resolveP env.cwd folder
          · simp only [if_pos hstop, dif_pos hdir]
            obtain ⟨rI, sI, hrec⟩ := searchConfigInFolder_ok env ps
              (dirnameP (resolveP env.cwd folder)) s₁
            obtain ⟨t₁, ht₁⟩ := scif_logs env ps (dirnameP (resolveP env.cwd folder)) s₁
            rw [hrec] at ht₁ ⊢
            dsimp only at ht₁ ⊢
            refine ⟨t₀ ++ ([LogMsg.searchInFolder (resolveP env.cwd
              (dirnameP (resolveP env.cwd folder)))] ++ t₁), ?_⟩
            split <;> simp [ht₁, ht₀, List.append_assoc]
          · simp only [dif_neg hdir]
            refine ⟨t₀, ?_⟩
            split <;> simp [ht₀, List.append_assoc]
        · simp only [if_neg hstop]
          refine ⟨t₀, ?_⟩
          split <;> simp [ht₀, List.append_assoc]
      · refine ⟨t₀, ?_⟩
        split <;> simp [ht₀, List.append_assoc]
  · rw [searchConfigInFolder_cacheHit env ps folder s cached hcache]
    exact ⟨[.loadedFromCache], by simp [logM]⟩
termination_by (resolveP env.cwd folder).parts.length
decreasing_by
  exact dirname_resolve_lt env.cwd folder hdir

theorem scif_visits_self (env : Env C V LD) (ps : Params LD) (folder : NPath)
    (s : CState V LD) :
    LogMsg.searchInFolder (resolveP env.cwd folder) ∈
      (searchConfigInFolder env ps folder s).2.logs := by
  obtain ⟨t, ht⟩ := scif_logs env ps folder s
  rw [ht]
  simp

/-- C4: file-description order is a total, stable priority: when every
description before `d` has failed in a folder, and `d` matches a file whose
load yields a (non-empty) result, that result is returned at once with the
descriptions after `d` left untried (the final state is exactly the state
reached when `d` succeeded); and a folder whose descriptions produced a
result ends the cascade — the parent is not searched (the final state is
exactly the local state plus the cache write). -/
theorem c4_description_order_is_priority (env : Env C V LD) (ps : Params LD)
    (folder : NPath) (l₁ l₂ : List (FileDescription LD)) (d : FileDescription LD)
    (s s₁ s₂ s₃ : CState V LD) (fl : FoundFile LD) (r : ConfinodeResult V)
    (folder₂ : NPath) (t t₁ : CState V LD) (r' : ConfinodeResult V) :
    (searchConfigUsingDescriptions env ps folder l₁ s = (.ok none, s₁) →
     searchFileAndLoader env ps folder d s₁ = (.ok (some fl), s₂) →
     loadConfigFile env ps fl.fileName (some ⟨fl.loaderName, fl.loader⟩) s₂ =
       (.ok (some r), s₃) →
     searchConfigUsingDescriptions env ps folder (l₁ ++ d :: l₂) s =
       (.ok (some r), logM (.loadedConfiguration fl.fileName) s₃)) ∧
    (t.contentCache.lookup (resolveP env.cwd folder₂) = none →
     searchConfigUsingDescriptions env ps (resolveP env.cwd folder₂) ps.files
       (logM (.searchInFolder (resolveP env.cwd folder₂)) t) = (.ok (some r'), t₁) →
     searchConfigInFolder env ps folder₂ t =
       (.ok (some r'), if ps.cache then
           { t₁ with contentCache := (resolveP env.cwd folder₂, some r') :: t₁.contentCache }
         else t₁)) := by
  constructor
  · intro h1 h2 h3
    rw [scud_append env ps folder l₁ (d :: l₂) s s₁ h1]
    rw [searchConfigUsingDescriptions, h2]
    dsimp only
    rw [h3]
  · intro hm hs
    rw [searchConfigInFolder_cacheMiss env ps folder₂ t hm]
    dsimp only
    rw [hs]

/-- The state after a basename description has listed a folder. -/
def sfalListedState (ps : Params LD) (folderName : NPath) (entries : List String)
    (s : CState V LD) : CState V LD :=
  let s' : CState V LD := reqM (.folderContent folderName) s
  if ps.cache then { s' with folderCache := (folderName, entries) :: s'.folderCache } else s'

/-- C6: for a basename description on a listed directory, zero resolved
candidates make the description fail; exactly one is used as is; several
log a `multipleFiles` warning and the first match in directory-listing
order is picked deterministically. -/
theorem c6_basename_candidate_selection (env : Env C V LD) (ps : Params LD)
    (folder : NPath) (dparts : List String) (s : CState V LD) (entries : List String)
    (hfc : s.folderCache.lookup (dirnameP (joinP folder dparts)) = none)
    (hdl : env.folderContent (dirnameP (joinP folder dparts)) = .ok entries) :
    searchFileAndLoader env ps folder (.fileBasename dparts) s =
      (match candidateLoaders env ps (dirnameP (joinP folder dparts))
          ((dparts.getLast?).getD "" ++ ".") entries with
       | [] => (.ok none,
           sfalListedState ps (dirnameP (joinP folder dparts)) entries s)
       | [x] => (.ok (some x),
           sfalListedState ps (dirnameP (joinP folder dparts)) entries s)
       | x :: _ :: _ => (.ok (some x),
           logM (.multipleFiles (joinP folder dparts))
             (sfalListedState ps (dirnameP (joinP folder dparts)) entries s))) := by
  unfold searchFileAndLoader
  dsimp only
  rw [hfc, hdl]
  rcases hc : candidateLoaders env ps (dirnameP (joinP folder dparts))
      ((dparts.getLast?).getD "" ++ ".") entries with _ | ⟨x, _ | ⟨y, tl⟩⟩ <;>
    simp [pickLoader, sfalListedState, hc]

/-- C7: a matched file whose load yields the empty result is treated as a
non-match — the remaining descriptions of the directory are still tried
(the scan continues exactly as if the description had not matched), and a
directory whose descriptions all came up empty hands over to its parent,
whose visit appears in the final log. -/
theorem c7_empty_load_is_no_match (env : Env C V LD) (ps : Params LD)
    (folder : NPath) (d : FileDescription LD) (ds : List (FileDescription LD))
    (s s' s'' : CState V LD) (fl : FoundFile LD)
    (folder₂ : NPath) (t t₁ : CState V LD) :
    (searchFileAndLoader env ps folder d s = (.ok (some fl), s') →
     loadConfigFile env ps fl.fileName (some ⟨fl.loaderName, fl.loader⟩) s' =
       (.ok none, s'') →
     searchConfigUsingDescriptions env ps folder (d :: ds) s =
       searchConfigUsingDescriptions env ps folder ds s'') ∧
    (t.contentCache.lookup (resolveP env.cwd folder₂) = none →
     searchConfigUsingDescriptions env ps (resolveP env.cwd folder₂) ps.files
       (logM (.searchInFolder (resolveP env.cwd folder₂)) t) = (.ok none, t₁) →
     resolveP env.cwd folder₂ ≠ ps.searchStop →
     dirnameP (resolveP env.cwd folder₂) ≠ resolveP env.cwd folder₂ →
     ∃ rI sI, searchConfigInFolder env ps (dirnameP (resolveP env.cwd folder₂)) t₁ =
         (.ok rI, sI) ∧
       searchConfigInFolder env ps folder₂ t =
         (.ok rI, if ps.cache then
             { sI with contentCache := (resolveP env.cwd folder₂, rI) :: sI.contentCache }
           else sI) ∧
       LogMsg.searchInFolder (resolveP env.cwd (dirnameP (resolveP env.cwd folder₂))) ∈
         sI.logs) := by
  constructor
  · intro h1 h2
    rw [searchConfigUsingDescriptions, h1]
    dsimp only
    rw [h2]
  · intro hm hs hstop hdir
    obtain ⟨rI, sI, hrec⟩ := searchConfigInFolder_ok env ps
      (dirnameP (resolveP env.cwd folder₂)) t₁
    refine ⟨rI, sI, hrec, ?_, ?_⟩
    · rw [searchConfigInFolder_cacheMiss env ps folder₂ t hm]
      dsimp only
      rw [hs]
      dsimp only
      rw [if_pos hstop, dif_pos hdir, hrec]
    · have := scif_visits_self env ps (dirnameP (resolveP env.cwd folder₂)) t₁
      rw [hrec] at this
      exact this

/-- C8: when loading produces a non-empty parsed value, that value is
passed to the external description layer (`descriptionParse`, with the
file name in the context) and the typed result is wrapped with provenance
metadata: the absolute file name and an empty `extends` chain. -/
theorem c8_nonempty_parse_wrapped_with_provenance (env : Env C V LD) (ps : Params LD)
    (fileName : NPath) (ul : NamedLoader LD) (s : CState V LD) (content : C) (v : V)
    (habs : fileName.isAbs = true)
    (hm : s.contentCache.lookup fileName = none)
    (hload : env.loadFile fileName ul.loader = .ok (some content))
    (hparse : env.descriptionParse content ⟨"", fileName, true⟩ = some v) :
    (∃ s', loadConfigFile env ps fileName (some ul) s =
      (.ok (some ⟨v, ⟨fileName, []⟩⟩), s')) ∧
    resolveP env.cwd fileName = fileName := by
  have hres := resolveP_of_isAbs env.cwd fileName habs
  refine ⟨?_, hres⟩
  unfold loadConfigFile
  rw [hres]
  dsimp only
  simp only [logM_contentCache]
  rw [hm]
  simp only [Option.some_orElse]
  rcases ul with ⟨nm, ld⟩
  rcases nm with _ | n <;>
    · dsimp only
      rw [hload]
      dsimp only
      rw [hparse]
      exact ⟨_, rfl⟩

/-- Environment where `/a/b/conf.yaml` loads as empty and `/a/conf.yaml`
holds configuration. -/
def wEnv2 : Env Nat Nat Nat :=
  { wEnv with
    folderContent := fun p =>
      if p = .abs ["a"] ∨ p = .abs ["a","b"] then .ok ["conf.yaml"] else .ok [] }

/-- Environment where `/a` holds two matching candidates. -/
def wEnv3 : Env Nat Nat Nat :=
  { wEnv with
    folderContent := fun p =>
      if p = .abs ["a"] then .ok ["conf.yaml", "conf.json"] else .ok [],
    getLoaderFor := fun _ fn _ =>
      if fn = "conf.yaml" then some ⟨some "yaml", 1⟩ else
      if fn = "conf.json" then some ⟨some "json", 2⟩ else none }

/-- States reached while the C4 witness search processes its descriptions. -/
def c4s1 : CState Nat Nat :=
  (searchConfigUsingDescriptions wEnv wPs (.abs ["a"])
    [.explicitFile ["nope"] 9] CState.init).2

/-- State after the C4 witness matched its description. -/
def c4s2 : CState Nat Nat :=
  (searchFileAndLoader wEnv wPs (.abs ["a"]) (.fileBasename ["conf"]) c4s1).2

/-- State after the C4 witness loaded its file. -/
def c4s3 : CState Nat Nat :=
  (loadConfigFile wEnv wPs (.abs ["a","conf.yaml"]) (some ⟨some "yaml", 1⟩) c4s2).2

/-- State after the C4 witness cascade tried all descriptions in `/a`. -/
def c4t1 : CState Nat Nat :=
  (searchConfigUsingDescriptions wEnv wPs (.abs ["a"]) wPs.files
    (logM (.searchInFolder (.abs ["a"])) CState.init)).2

/-- The result loaded by the C4 witness. -/
def c4r : ConfinodeResult Nat := ⟨7, ⟨.abs ["a","conf.yaml"], []⟩⟩

/-- Witness for C4: the second description wins after the first fails, the
third is never consulted, and the cascade stops at `/a`. -/
theorem c4_description_order_is_priority_witness :
    searchConfigUsingDescriptions wEnv wPs (.abs ["a"])
        ([.explicitFile ["nope"] 9] ++ .fileBasename ["conf"] :: [.fileBasename ["zzz"]])
        CState.init =
      (.ok (some c4r), logM (.loadedConfiguration (.abs ["a","conf.yaml"])) c4s3) ∧
    searchConfigInFolder wEnv wPs (.abs ["a"]) CState.init =
      (.ok (some c4r), { c4t1 with contentCache := (.abs ["a"], some c4r) :: c4t1.contentCache }) := by
  have h := c4_description_order_is_priority wEnv wPs (.abs ["a"])
    [.explicitFile ["nope"] 9] [.fileBasename ["zzz"]] (.fileBasename ["conf"])
    CState.init c4s1 c4s2 c4s3 ⟨.abs ["a","conf.yaml"], some "yaml", 1⟩ c4r
    (.abs ["a"]) CState.init c4t1 c4r
  exact ⟨h.1 rfl rfl rfl, h.2 rfl rfl⟩

/-- Witness for C6: two candidates in `/a` produce the warning and the
first listing entry wins. -/
theorem c6_basename_candidate_selection_witness :
    searchFileAndLoader wEnv3 wPs (.abs ["a"]) (.fileBasename ["conf"]) CState.init =
      (.ok (some ⟨.abs ["a","conf.yaml"], some "yaml", 1⟩),
        logM (.multipleFiles (.abs ["a","conf"]))
          (sfalListedState wPs (.abs ["a"]) ["conf.yaml", "conf.json"] CState.init)) :=
  c6_basename_candidate_selection wEnv3 wPs (.abs ["a"]) ["conf"] CState.init
    ["conf.yaml", "conf.json"] rfl rfl

/-- State after the C7 witness matched its description in `/a/b`. -/
def c7s1 : CState Nat Nat :=
  (searchFileAndLoader wEnv2 wPs (.abs ["a","b"]) (.fileBasename ["conf"]) CState.init).2

/-- State after the C7 witness loaded the empty file. -/
def c7s2 : CState Nat Nat :=
  (loadConfigFile wEnv2 wPs (.abs ["a","b","conf.yaml"]) (some ⟨some "yaml", 1⟩) c7s1).2

/-- State after the C7 witness cascade tried all descriptions in `/a/b`. -/
def c7t1 : CState Nat Nat :=
  (searchConfigUsingDescriptions wEnv2 wPs (.abs ["a","b"]) wPs.files
    (logM (.searchInFolder (.abs ["a","b"])) CState.init)).2

/-- Witness for C7: `/a/b/conf.yaml` loads empty, the scan continues, and
the cascade proceeds to `/a`. -/
theorem c7_empty_load_is_no_match_witness :
    (searchConfigUsingDescriptions wEnv2 wPs (.abs ["a","b"])
        (.fileBasename ["conf"] :: [.fileBasename ["zzz"]]) CState.init =
      searchConfigUsingDescriptions wEnv2 wPs (.abs ["a","b"]) [.fileBasename ["zzz"]] c7s2) ∧
    (∃ rI sI, searchConfigInFolder wEnv2 wPs (.abs ["a"]) c7t1 = (.ok rI, sI) ∧
      searchConfigInFolder wEnv2 wPs (.abs ["a","b"]) CState.init =
        (.ok rI, { sI with contentCache := (.abs ["a","b"], rI) :: sI.contentCache }) ∧
      LogMsg.searchInFolder (.abs ["a"]) ∈ sI.logs) := by
  have h := c7_empty_load_is_no_match wEnv2 wPs (.abs ["a","b"]) (.fileBasename ["conf"])
    [.fileBasename ["zzz"]] CState.init c7s1 c7s2
    ⟨.abs ["a","b","conf.yaml"], some "yaml", 1⟩ (.abs ["a","b"]) CState.init c7t1
  exact ⟨h.1 rfl rfl, h.2 rfl rfl (by decide) (by decide)⟩

/-- Witness for C8 at the concrete environment. -/
theorem c8_nonempty_parse_wrapped_with_provenance_witness :
    (∃ s', loadConfigFile wEnv wPs (.abs ["a","conf.yaml"]) (some ⟨some "yaml", 1⟩)
        CState.init = (.ok (some ⟨7, ⟨.abs ["a","conf.yaml"], []⟩⟩), s')) ∧
    resolveP wEnv.cwd (.abs ["a","conf.yaml"]) = .abs ["a","conf.yaml"] :=
  c8_nonempty_parse_wrapped_with_provenance wEnv wPs (.abs ["a","conf.yaml"])
    ⟨some "yaml", 1⟩ CState.init 5 7 rfl rfl rfl rfl



/-- Environment where listing `/a/b` fails while `/a/conf.yaml` holds
configuration. -/
def wEnvErr : Env Nat Nat Nat :=
  { wEnv with
    folderContent := fun p =>
      if p = .abs ["a","b"] then .error "disk failure"
      else if p = .abs ["a"] then .ok ["conf.yaml"] else .ok [] }

/-- Counterexample to C2 as stated: when listing `/a/b` raises, the error
is caught and logged, but the whole search returns "not found" without ever
visiting the parent `/a` — although searching `/a` alone finds the
configuration.  The cascade therefore does not continue upward past an
erroring directory. -/
theorem c2_error_aborts_cascade_counterexample :
    (searchConfig wEnvErr wPs (.abs ["a","b"]) CState.init).1 = .ok none ∧
    LogMsg.errorLog false (.external "disk failure") ∈
      (searchConfig wEnvErr wPs (.abs ["a","b"]) CState.init).2.logs ∧
    LogMsg.searchInFolder (.abs ["a"]) ∉
      (searchConfig wEnvErr wPs (.abs ["a","b"]) CState.init).2.logs ∧
    (searchConfigInFolder wEnvErr wPs (.abs ["a"]) CState.init).1 =
      .ok (some ⟨7, ⟨.abs ["a","conf.yaml"], []⟩⟩) := by
  rw [← searchConfigExec_eq wEnvErr wPs 3 (.abs ["a","b"]) CState.init (by decide),
    ← searchConfigInFolderExec_eq wEnvErr wPs 2 (.abs ["a"]) CState.init (by decide)]
  exact ⟨rfl, by decide, by decide, rfl⟩

/-- C2 (amended): an error raised while trying the file descriptions of a
directory is caught and logged as a recoverable "loading" failure and the
directory yields no match, but the cascade does not continue to the parent:
the search ends at that directory, returning "not found" (the final state
is pinned exactly — only the error log and the cache write are added, and
no directory other than the erroring one is newly visited). -/
theorem c2_error_logged_cascade_aborts (env : Env C V LD) (ps : Params LD) (folder : NPath)
    (s s₁ : CState V LD) (e : CErr)
    (hm : s.contentCache.lookup (resolveP env.cwd folder) = none)
    (hs : searchConfigUsingDescriptions env ps (resolveP env.cwd folder) ps.files
      (logM (.searchInFolder (resolveP env.cwd folder)) s) = (.error e, s₁)) :
    searchConfigInFolder env ps folder s =
      (.ok none, if ps.cache then
          { logM (.errorLog false e) s₁ with
              contentCache := (resolveP env.cwd folder, none) :: s₁.contentCache }
        else logM (.errorLog false e) s₁) ∧
    (∀ v, LogMsg.searchInFolder v ∈ (logM (.errorLog false e) s₁).logs →
      LogMsg.searchInFolder v ∈ s.logs ∨ v = resolveP env.cwd folder) := by
  constructor
  · rw [searchConfigInFolder_cacheMiss env ps folder s hm]
    dsimp only
    rw [hs]
    rfl
  · intro v hv
    simp only [logM_logs, List.mem_append, List.mem_singleton] at hv
    rcases hv with hv | hv
    · have hv1 := scud_sif env ps _ _ _ v (by rw [hs]; exact hv)
      simp only [logM_logs, List.mem_append, List.mem_singleton] at hv1
      rcases hv1 with hv1 | hv1
      · exact Or.inl hv1
      · exact Or.inr (LogMsg.searchInFolder.inj hv1)
    · exact absurd hv (by simp)

/-- `a` is a proper ancestor directory of `b` (both absolute): the
components of `a` are a proper initial segment of those of `b`. -/
def strictAncestor (a b : NPath) : Prop :=
  a.isAbs = true ∧ b.isAbs = true ∧ b.parts.take a.parts.length = a.parts ∧ a ≠ b

instance (a b : NPath) : Decidable (strictAncestor a b) := by
  unfold strictAncestor
  exact inferInstance

/-- Writing a cache entry does not change the log. -/
theorem write_logs (c : Prop) [Decidable c]
    (cc : List (NPath × Option (ConfinodeResult V))) (t : CState V LD) :
    (if c then { t with contentCache := cc } else t).logs = t.logs := by
  split <;> rfl

/-- All directories visited by a cascade whose stop directory is an
ancestor of (or equal to) the resolved start folder lie between the start
folder and the stop directory. -/
theorem cascade_visits_bounded (env : Env C V LD) (ps : Params LD)
    (stopParts : List String) (hstop : ps.searchStop = .abs stopParts)
    (folder : NPath) (s : CState V LD) :
    ∀ l, resolveP env.cwd folder = .abs l →
      l.take stopParts.length = stopParts →
      ∀ r s', searchConfigInFolder env ps folder s = (.ok r, s') →
      ∀ v, LogMsg.searchInFolder v ∈ s'.logs →
        LogMsg.searchInFolder v ∈ s.logs ∨
        ∃ m, v = .abs m ∧ stopParts.length ≤ m.length ∧ l.take m.length = m := by
  induction folder, s using searchConfigInFolder.induct env ps with
  | case1 folder s absF s1 cached hlook =>
    intro l hl hpre r s' h v hv
    have hlcon : s.contentCache.lookup (resolveP env.cwd folder) = some cached := hlook
    rw [searchConfigInFolder_cacheHit env ps folder s cached hlcon] at h
    have h2 := congrArg Prod.snd h
    dsimp only at h2
    subst h2
    have hlen : stopParts.length ≤ l.length := by
      have := congrArg List.length hpre
      rw [List.length_take] at this
      omega
    simp only [logM_logs, List.mem_append, List.mem_singleton] at hv
    rcases hv with (hv | hv) | hv
    · exact Or.inl hv
    · obtain rfl := LogMsg.searchInFolder.inj hv
      exact Or.inr ⟨l, hl, hlen, List.take_length l⟩
    · exact absurd hv (by simp)
  | case2 folder s absF s1 hlook ih =>
    intro l hl hpre r s' h v hv
    have hlcon : s.contentCache.lookup (resolveP env.cwd folder) = none := hlook
    rw [searchConfigInFolder_cacheMiss env ps folder s hlcon] at h
    dsimp only at h
    have hlen : stopParts.length ≤ l.length := by
      have := congrArg List.length hpre
      rw [List.length_take] at this
      omega
    have hself : ∀ w, LogMsg.searchInFolder w ∈
        (logM (.searchInFolder (resolveP env.cwd folder)) s).logs →
        LogMsg.searchInFolder w ∈ s.logs ∨
        ∃ m, w = .abs m ∧ stopParts.length ≤ m.length ∧ l.take m.length = m := by
      intro w hw
      simp only [logM_logs, List.mem_append, List.mem_singleton] at hw
      rcases hw with hw | hw
      · exact Or.inl hw
      · obtain rfl := LogMsg.searchInFolder.inj hw
        exact Or.inr ⟨l, hl, hlen, List.take_length l⟩
    rcases hscud : searchConfigUsingDescriptions env ps (resolveP env.cwd folder) ps.files
        (logM (.searchInFolder (resolveP env.cwd folder)) s) with ⟨res, sA⟩
    rw [hscud] at h
    have hAv : ∀ w, LogMsg.searchInFolder w ∈ sA.logs →
        LogMsg.searchInFolder w ∈ s.logs ∨
        ∃ m, w = .abs m ∧ stopParts.length ≤ m.length ∧ l.take m.length = m := by
      intro w hw
      exact hself w (scud_sif env ps _ _ _ w (by rw [hscud]; exact hw))
    rcases res with e | ro
    · dsimp only at h
      have h2 := congrArg Prod.snd h
      dsimp only at h2
      subst h2
      rw [write_logs] at hv
      simp only [logM_logs, List.mem_append, List.mem_singleton] at hv
      rcases hv with hv | hv
      · exact hAv v hv
      · exact absurd hv (by simp)
    · rcases ro with _ | r0
      · dsimp only at h
        by_cases hnst : resolveP env.cwd folder ≠ ps.searchStop
        · by_cases hdir : dirnameP (resolveP env.cwd folder) ≠ resolveP env.cwd folder
          · rw [if_pos hnst, dif_pos hdir] at h
            obtain ⟨rI, sI, hrec⟩ := searchConfigInFolder_ok env ps
              (dirnameP (resolveP env.cwd folder)) sA
            rw [hrec] at h
            dsimp only at h
            have h2 := congrArg Prod.snd h
            dsimp only at h2
            subst h2
            rw [write_logs] at hv
            have hnel : l ≠ stopParts := by
              intro hh
              exact hnst (by rw [hl, hstop, hh])
            have hlt : stopParts.length < l.length := by
              rcases Nat.lt_or_ge stopParts.length l.length with hlt | hge
              · exact hlt
              · exfalso
                apply hnel
                have heq : stopParts.length = l.length := le_antisymm hlen hge
                rw [heq, List.take_length] at hpre
                exact hpre
            have hl2 : resolveP env.cwd (dirnameP (resolveP env.cwd folder)) =
                .abs l.dropLast := by rw [hl]; rfl
            have hpre2 : l.dropLast.take stopParts.length = stopParts := by
              rw [List.dropLast_eq_take, List.take_take]
              rw [min_eq_left (by omega)]
              exact hpre
            have hih := ih sA hdir l.dropLast hl2 hpre2 rI sI hrec v hv
            rcases hih with hih | ⟨m, rfl, hm1, hm2⟩
            · exact hAv v hih
            · refine Or.inr ⟨m, rfl, hm1, ?_⟩
              have hmlen : m.length ≤ l.length - 1 := by
                have := congrArg List.length hm2
                rw [List.length_take, List.length_dropLast] at this
                omega
              rw [List.dropLast_eq_take, List.take_take, min_eq_left hmlen] at hm2
              exact hm2
          · rw [if_pos hnst, dif_neg hdir] at h
            dsimp only at h
            have h2 := congrArg Prod.snd h
            dsimp only at h2
            subst h2
            rw [write_logs] at hv
            exact hAv v hv
        · rw [if_neg hnst] at h
          dsimp only at h
          have h2 := congrArg Prod.snd h
          dsimp only at h2
          subst h2
          rw [write_logs] at hv
          exact hAv v hv
      · dsimp only at h
        have h2 := congrArg Prod.snd h
        dsimp only at h2
        subst h2
        rw [write_logs] at hv
        exact hAv v hv

/-- C3 (amended): when the stop directory is an ancestor of (or equal to)
the resolved start folder, no directory strictly above the stop directory
is ever visited by the cascade; and the cascade ends when the processed
directory equals the stop directory, or at a directory that is its own
parent (the filesystem root) — in either case with the final state pinned
exactly.  (Without the ancestor hypothesis the cascade may climb past the
stop directory to the root, see the counterexample and C10.) -/
theorem c3_visits_between_start_and_stop (env : Env C V LD) (ps : Params LD) (stopParts : List String)
    (folder : NPath) (s : CState V LD) (l : List String)
    (r : Option (ConfinodeResult V)) (s' : CState V LD)
    (env₂ : Env C V LD) (ps₂ : Params LD) (folder₂ : NPath) (t t₁ : CState V LD)
    (env₃ : Env C V LD) (ps₃ : Params LD) (folder₃ : NPath) (u u₁ : CState V LD) :
    (ps.searchStop = .abs stopParts →
     resolveP env.cwd folder = .abs l →
     l.take stopParts.length = stopParts →
     searchConfigInFolder env ps folder s = (.ok r, s') →
     ∀ v, LogMsg.searchInFolder v ∈ s'.logs →
       LogMsg.searchInFolder v ∈ s.logs ∨ ¬ strictAncestor v ps.searchStop) ∧
    (t.contentCache.lookup (resolveP env₂.cwd folder₂) = none →
     searchConfigUsingDescriptions env₂ ps₂ (resolveP env₂.cwd folder₂) ps₂.files
       (logM (.searchInFolder (resolveP env₂.cwd folder₂)) t) = (.ok none, t₁) →
     resolveP env₂.cwd folder₂ = ps₂.searchStop →
     searchConfigInFolder env₂ ps₂ folder₂ t =
       (.ok none, if ps₂.cache then
           { t₁ with contentCache := (resolveP env₂.cwd folder₂, none) :: t₁.contentCache }
         else t₁)) ∧
    (u.contentCache.lookup (resolveP env₃.cwd folder₃) = none →
     searchConfigUsingDescriptions env₃ ps₃ (resolveP env₃.cwd folder₃) ps₃.files
       (logM (.searchInFolder (resolveP env₃.cwd folder₃)) u) = (.ok none, u₁) →
     resolveP env₃.cwd folder₃ ≠ ps₃.searchStop →
     dirnameP (resolveP env₃.cwd folder₃) = resolveP env₃.cwd folder₃ →
     searchConfigInFolder env₃ ps₃ folder₃ u =
       (.ok none, if ps₃.cache then
           { u₁ with contentCache := (resolveP env₃.cwd folder₃, none) :: u₁.contentCache }
         else u₁)) := by
  refine ⟨?_, ?_, ?_⟩
  · intro h1 h2 h3 h4 v hv
    have hb := cascade_visits_bounded env ps stopParts h1 folder s l h2 h3 r s' h4 v hv
    rcases hb with hb | ⟨m, rfl, hm1, hm2⟩
    · exact Or.inl hb
    · refine Or.inr ?_
      rintro ⟨ha, hbb, hc, hd⟩
      rw [h1] at hc hd
      simp only [NPath.parts] at hc
      have hml : m.length ≤ stopParts.length := by
        have := congrArg List.length hc
        rw [List.length_take] at this
        omega
      have heq : m.length = stopParts.length := le_antisymm hml hm1
      rw [heq, List.take_length] at hc
      exact hd (by rw [hc])
  · intro hm hs heq
    rw [searchConfigInFolder_cacheMiss env₂ ps₂ folder₂ t hm]
    dsimp only
    rw [hs]
    dsimp only
    rw [if_neg (show ¬ resolveP env₂.cwd folder₂ ≠ ps₂.searchStop from fun hh => hh heq)]
  · intro hm hs hne hroot
    rw [searchConfigInFolder_cacheMiss env₃ ps₃ folder₃ u hm]
    dsimp only
    rw [hs]
    dsimp only
    rw [if_pos hne, dif_neg
      (show ¬ dirnameP (resolveP env₃.cwd folder₃) ≠ resolveP env₃.cwd folder₃ from
        fun hh => hh hroot)]

/-- Environment with directories everywhere and no configuration file
anywhere. -/
def wEnvNone : Env Nat Nat Nat :=
  { wEnv with
    isDirectory := fun _ => .ok true,
    folderContent := fun _ => .ok [] }

/-- Parameters whose stop directory is not an ancestor of the search
start used in the C3 counterexample. -/
def psFar : Params Nat := { wPs with searchStop := .abs ["home","user"] }

/-- Counterexample to C3 as stated: with the stop directory `/home/user`
and a search starting at `/tmp`, the root directory — strictly above the
stop directory — is inspected. -/
theorem c3_visits_above_stop_counterexample :
    LogMsg.searchInFolder (.abs []) ∈
      (searchConfig wEnvNone psFar (.abs ["tmp"]) CState.init).2.logs ∧
    strictAncestor (.abs []) psFar.searchStop := by
  rw [← searchConfigExec_eq wEnvNone psFar 2 (.abs ["tmp"]) CState.init (by decide)]
  exact ⟨by decide, by decide⟩

/-- Parameters stopping at `/a`. -/
def psNear : Params Nat := { wPs with searchStop := .abs ["a"] }

/-- Final state of the C3 witness cascade. -/
def c3w1 : CState Nat Nat :=
  (searchConfigInFolderExec wEnv psNear 3 (.abs ["a","b"]) CState.init).2

/-- State after the C3 witness scanned the stop directory. -/
def c3w2 : CState Nat Nat :=
  (searchConfigUsingDescriptions wEnvNone psNear (.abs ["a"]) psNear.files
    (logM (.searchInFolder (.abs ["a"])) CState.init)).2

/-- State after the C3 witness scanned the root. -/
def c3w3 : CState Nat Nat :=
  (searchConfigUsingDescriptions wEnvNone psFar (.abs []) psFar.files
    (logM (.searchInFolder (.abs [])) CState.init)).2

/-- Witness for the amended C3 at concrete environments. -/
theorem c3_visits_between_start_and_stop_witness :
    (LogMsg.searchInFolder (.abs ["a","b"]) ∈ (CState.init : CState Nat Nat).logs ∨
      ¬ strictAncestor (.abs ["a","b"]) psNear.searchStop) ∧
    searchConfigInFolder wEnvNone psNear (.abs ["a"]) CState.init =
      (.ok none, { c3w2 with contentCache := (.abs ["a"], none) :: c3w2.contentCache }) ∧
    searchConfigInFolder wEnvNone psFar (.abs []) CState.init =
      (.ok none, { c3w3 with contentCache := (.abs [], none) :: c3w3.contentCache }) := by
  have h := c3_visits_between_start_and_stop wEnv psNear ["a"] (.abs ["a","b"]) CState.init ["a","b"]
    (some c4r) c3w1 wEnvNone psNear (.abs ["a"]) CState.init c3w2
    wEnvNone psFar (.abs []) CState.init c3w3
  refine ⟨h.1 rfl rfl (by decide) ?_ (.abs ["a","b"]) ?_, h.2.1 rfl rfl rfl,
    h.2.2 rfl rfl (by decide) rfl⟩
  · rw [← searchConfigInFolderExec_eq wEnv psNear 3 (.abs ["a","b"]) CState.init (by decide)]
    rfl
  · rw [show c3w1 = (searchConfigInFolderExec wEnv psNear 3 (.abs ["a","b"]) CState.init).2 from rfl]
    decide

theorem sfal_trivial (env : Env C V LD) (ps : Params LD) (folder : NPath)
    (d : FileDescription LD) (s : CState V LD)
    (hfe : ∀ p, env.fileExists p = .ok false)
    (hdl : ∀ p, env.folderContent p = .ok [])
    (hfc : ∀ p e, s.folderCache.lookup p = some e → e = []) :
    ∃ s', searchFileAndLoader env ps folder d s = (.ok none, s') ∧
      s'.contentCache = s.contentCache ∧ s'.logs = s.logs ∧
      (∀ p e, s'.folderCache.lookup p = some e → e = []) := by
  unfold searchFileAndLoader
  rcases d with dparts | ⟨nparts, loader⟩
  · dsimp only
    rcases hfcl : s.folderCache.lookup (dirnameP (joinP folder dparts)) with _ | entries
    · rw [hdl]
      dsimp only
      by_cases hq : ps.cache = true
      · rw [if_pos hq]
        refine ⟨_, rfl, rfl, rfl, ?_⟩
        intro p e hpe
        simp only [reqM_folderCache] at hpe
        by_cases hp : p = dirnameP (joinP folder dparts)
        · subst hp
          rw [lookup_cons_self] at hpe
          exact (Option.some.inj hpe).symm
        · rw [lookup_cons_ne _ _ hp] at hpe
          exact hfc p e hpe
      · rw [if_neg hq]
        exact ⟨_, rfl, rfl, rfl, fun p e hpe => hfc p e hpe⟩
    · have he : entries = [] := hfc _ _ hfcl
      subst he
      exact ⟨s, rfl, rfl, rfl, hfc⟩
  · dsimp only
    rw [hfe]
    exact ⟨_, rfl, rfl, rfl, fun p e hpe => hfc p e hpe⟩

theorem scud_trivial (env : Env C V LD) (ps : Params LD) (folder : NPath)
    (ds : List (FileDescription LD)) (s : CState V LD)
    (hfe : ∀ p, env.fileExists p = .ok false)
    (hdl : ∀ p, env.folderContent p = .ok [])
    (hfc : ∀ p e, s.folderCache.lookup p = some e → e = []) :
    ∃ s', searchConfigUsingDescriptions env ps folder ds s = (.ok none, s') ∧
      s'.contentCache = s.contentCache ∧ s'.logs = s.logs ∧
      (∀ p e, s'.folderCache.lookup p = some e → e = []) := by
  induction ds generalizing s with
  | nil => exact ⟨s, rfl, rfl, rfl, hfc⟩
  | cons d ds ih =>
    obtain ⟨s', hs', hcc, hlg, hfc'⟩ := sfal_trivial env ps folder d s hfe hdl hfc
    obtain ⟨s'', hs'', hcc', hlg', hfc''⟩ := ih s' hfc'
    refine ⟨s'', ?_, by rw [hcc', hcc], by rw [hlg', hlg], hfc''⟩
    rw [searchConfigUsingDescriptions, hs']
    exact hs''

/-- When no prefix of the resolved start folder equals the configured stop
directory as given, and nothing matches anywhere, the cascade climbs all
the way to the filesystem root. -/
theorem cascade_reaches_root (env : Env C V LD) (ps : Params LD)
    (hfe : ∀ p, env.fileExists p = .ok false)
    (hdl : ∀ p, env.folderContent p = .ok []) (folder : NPath) (s : CState V LD) :
    ∀ l, resolveP env.cwd folder = .abs l →
      s.contentCache = [] →
      (∀ p e, s.folderCache.lookup p = some e → e = []) →
      (∀ k, k ≤ l.length → NPath.abs (l.take k) ≠ ps.searchStop) →
      ∃ s', searchConfigInFolder env ps folder s = (.ok none, s') ∧
        LogMsg.searchInFolder (.abs []) ∈ s'.logs := by
  induction folder, s using searchConfigInFolder.induct env ps with
  | case1 folder s absF s1 cached hlook =>
    intro l hl hcc hfc hne
    exfalso
    have hx : s.contentCache.lookup (resolveP env.cwd folder) = some cached := hlook
    rw [hcc] at hx
    simp [List.lookup] at hx
  | case2 folder s absF s1 hlook ih =>
    intro l hl hcc hfc hne
    have hlcon : s.contentCache.lookup (resolveP env.cwd folder) = none := hlook
    rw [searchConfigInFolder_cacheMiss env ps folder s hlcon]
    dsimp only
    obtain ⟨sA, hsA, hccA, hlgA, hfcA⟩ := scud_trivial env ps (resolveP env.cwd folder)
      ps.files (logM (.searchInFolder (resolveP env.cwd folder)) s) hfe hdl
      (fun p e hpe => hfc p e hpe)
    rw [hsA]
    dsimp only
    have hnst : resolveP env.cwd folder ≠ ps.searchStop := by
      rw [hl]
      have hk := hne l.length (le_refl _)
      rw [List.take_length] at hk
      exact hk
    rw [if_pos hnst]
    rcases l with _ | ⟨hd0, tl0⟩
    · have hroot : ¬ dirnameP (resolveP env.cwd folder) ≠ resolveP env.cwd folder := by
        intro hh
        exact hh (by rw [hl]; rfl)
      rw [dif_neg hroot]
      refine ⟨_, rfl, ?_⟩
      rw [write_logs, hlgA]
      rw [hl]
      simp [logM]
    · have hdl2 : (hd0 :: tl0).dropLast ≠ hd0 :: tl0 := by
        intro hh
        have := congrArg List.length hh
        rw [List.length_dropLast] at this
        simp at this
      have hdir : dirnameP (resolveP env.cwd folder) ≠ resolveP env.cwd folder := by
        rw [hl]
        intro hh
        exact hdl2 (NPath.abs.inj hh)
      rw [dif_pos hdir]
      have hl2 : resolveP env.cwd (dirnameP (resolveP env.cwd folder)) =
          .abs ((hd0 :: tl0).dropLast) := by rw [hl]; rfl
      have hcc2 : sA.contentCache = [] := by
        rw [hccA, logM_contentCache, hcc]
      have hne2 : ∀ k, k ≤ (hd0 :: tl0).dropLast.length →
          NPath.abs ((hd0 :: tl0).dropLast.take k) ≠ ps.searchStop := by
        intro k hk
        rw [List.length_dropLast] at hk
        rw [List.dropLast_eq_take, List.take_take, min_eq_left hk]
        exact hne k (by omega)
      obtain ⟨sI, hrec, hmem⟩ := ih sA hdir ((hd0 :: tl0).dropLast) hl2 hcc2 hfcA hne2
      rw [hrec]
      dsimp only
      refine ⟨_, rfl, ?_⟩
      rw [write_logs]
      exact hmem

/-- State after the failing scan of `/a/b` in the C2 witness. -/
def c2s1 : CState Nat Nat :=
  (searchConfigUsingDescriptions wEnvErr wPs (.abs ["a","b"]) wPs.files
    (logM (.searchInFolder (.abs ["a","b"])) CState.init)).2

/-- Witness for the amended C2 at the concrete erroring environment. -/
theorem c2_error_logged_cascade_aborts_witness :
    searchConfigInFolder wEnvErr wPs (.abs ["a","b"]) CState.init =
      (.ok none,
        { logM (.errorLog false (.external "disk failure")) c2s1 with
            contentCache := (.abs ["a","b"], none) :: c2s1.contentCache }) ∧
    (∀ v, LogMsg.searchInFolder v ∈
        (logM (.errorLog false (.external "disk failure")) c2s1).logs →
      LogMsg.searchInFolder v ∈ (CState.init : CState Nat Nat).logs ∨
        v = .abs ["a","b"]) :=
  c2_error_logged_cascade_aborts wEnvErr wPs (.abs ["a","b"]) CState.init c2s1
    (.external "disk failure") rfl rfl

/-- Parameters whose stop directory is a relative path as given. -/
def psRel : Params Nat := { wPs with searchStop := .rel ["home"] }

/-- Parameters stopping exactly at `/a/b`. -/
def psAB : Params Nat := { wPs with searchStop := .abs ["a","b"] }

/-- State after the C10 witness scanned `/a/b`. -/
def c10w2 : CState Nat Nat :=
  (searchConfigUsingDescriptions wEnvNone psAB (.abs ["a","b"]) psAB.files
    (logM (.searchInFolder (.abs ["a","b"])) CState.init)).2

/-- C10: the stop test is exact equality between the resolved absolute
path of the current folder and `searchStop` exactly as configured
(`searchStop` itself is never resolved): if no ancestor of the start — no
prefix of its resolved component list — is equal to `searchStop` as given
(for instance because `searchStop` is a relative path), the cascade
continues until it reaches a directory equal to its own parent, the
filesystem root; and as soon as the resolved folder is equal to
`searchStop` as given, the cascade halts there. -/
theorem c10_stop_compared_verbatim (env : Env C V LD) (ps : Params LD) (folder : NPath)
    (s : CState V LD) (l : List String)
    (env₂ : Env C V LD) (ps₂ : Params LD) (folder₂ : NPath) (t t₁ : CState V LD) :
    ((∀ p, env.fileExists p = .ok false) →
     (∀ p, env.folderContent p = .ok []) →
     resolveP env.cwd folder = .abs l →
     s.contentCache = [] →
     (∀ p e, s.folderCache.lookup p = some e → e = []) →
     (∀ k, k ≤ l.length → NPath.abs (l.take k) ≠ ps.searchStop) →
     ∃ s', searchConfigInFolder env ps folder s = (.ok none, s') ∧
       LogMsg.searchInFolder (.abs []) ∈ s'.logs) ∧
    (t.contentCache.lookup (resolveP env₂.cwd folder₂) = none →
     searchConfigUsingDescriptions env₂ ps₂ (resolveP env₂.cwd folder₂) ps₂.files
       (logM (.searchInFolder (resolveP env₂.cwd folder₂)) t) = (.ok none, t₁) →
     resolveP env₂.cwd folder₂ = ps₂.searchStop →
     searchConfigInFolder env₂ ps₂ folder₂ t =
       (.ok none, if ps₂.cache then
           { t₁ with contentCache := (resolveP env₂.cwd folder₂, none) :: t₁.contentCache }
         else t₁)) := by
  constructor
  · intro hfe hdl hl hcc hfc hne
    exact cascade_reaches_root env ps hfe hdl folder s l hl hcc hfc hne
  · intro hm hs heq
    rw [searchConfigInFolder_cacheMiss env₂ ps₂ folder₂ t hm]
    dsimp only
    rw [hs]
    dsimp only
    rw [if_neg (show ¬ resolveP env₂.cwd folder₂ ≠ ps₂.searchStop from fun hh => hh heq)]

/-- Witness for C10: a relative stop directory never matches, so the
cascade reaches the root; an exactly-equal stop halts at once. -/
theorem c10_stop_compared_verbatim_witness :
    (∃ s', searchConfigInFolder wEnvNone psRel (.abs ["x","y"]) CState.init =
        (.ok none, s') ∧ LogMsg.searchInFolder (.abs []) ∈ s'.logs) ∧
    searchConfigInFolder wEnvNone psAB (.abs ["a","b"]) CState.init =
      (.ok none, { c10w2 with contentCache := (.abs ["a","b"], none) :: c10w2.contentCache }) := by
  have h := c10_stop_compared_verbatim wEnvNone psRel (.abs ["x","y"]) CState.init ["x","y"]
    wEnvNone psAB (.abs ["a","b"]) CState.init c10w2
  exact ⟨h.1 (fun _ => rfl) (fun _ => rfl) rfl rfl
      (fun p e hpe => by simp [List.lookup, CState.init] at hpe)
      (fun k _ hh => NPath.noConfusion hh),
    h.2 rfl rfl rfl⟩


end Confinode
